import Mathlib

/-!
Verification development for the interactive-coding analysis engine
(src/api/interactive-coding.py).

The Python module is embedded shallowly:

* Python strings are 'List Char'; the ASCII fragment of the regex character
  classes (backslash-w, backslash-s, [A-Z]) is modelled by 'isWordChar',
  'isSpaceChar' and 'Char.isUpper'.
* Each regular expression used by the extractors is compiled by hand into a
  matcher 'List Char -> Option (capture, rest)'.  Every pattern in the source
  is backtracking-free (each starred class is disjoint from the character
  that follows it), so maximal munch is exact.  're.finditer' semantics
  (leftmost, non-overlapping) is 'scanAux' / 'scanAll'.
* 'list(set(...))' is 'List.dedup' (the claims are order-insensitive).
* Python float arithmetic on the confidence score is modelled in ℚ; the
  literals 0.5, 0.2, 0.15 are 1/2, 1/5, 3/20.
* 'time.time() * 1000' clock reads are a 'Nat' millisecond argument; a second
  'Nat' argument distinguishes distinct invocations (concurrent calls can
  observe the same millisecond), mirroring that the source derives ids from
  the clock value alone.
* The asynchronous video task is modelled by the exact sequence of states the
  job record passes through ('videoTrace'); a failure point makes the task
  jump to the except-branch, which sets status "failed" and keeps progress.
-/

/-- ASCII fragment of the regex class backslash-w used by the source patterns. -/
def isWordChar (c : Char) : Bool := c.isAlpha || c.isDigit || c = '_'

/-- ASCII fragment of the regex class backslash-s. -/
def isSpaceChar (c : Char) : Bool :=
  c = ' ' || c = '\t' || c = '\n' || c = '\r' || c = '\x0b' || c = '\x0c'

/-- Characters admitted by the class [word, space, hyphen] of the className
patterns in extract_styling. -/
def isClassChar (c : Char) : Bool := isWordChar c || isSpaceChar c || c = '-'

/-- Matcher for the pattern:  function  backslash-s+  ([A-Z] word*).
Returns (group 1, input after the whole match). -/
def matchFunctionComp : List Char → Option (List Char × List Char)
  | 'f' :: 'u' :: 'n' :: 'c' :: 't' :: 'i' :: 'o' :: 'n' :: rest =>
    if (rest.takeWhile isSpaceChar) = [] then none
    else
      match rest.dropWhile isSpaceChar with
      | c :: r2 =>
        if c.isUpper then some (c :: r2.takeWhile isWordChar, r2.dropWhile isWordChar)
        else none
      | [] => none
  | _ => none

/-- Matcher for the pattern:  class  backslash-s+  ([A-Z] word*)  (Python mode
of extract_components). -/
def matchClassComp : List Char → Option (List Char × List Char)
  | 'c' :: 'l' :: 'a' :: 's' :: 's' :: rest =>
    if (rest.takeWhile isSpaceChar) = [] then none
    else
      match rest.dropWhile isSpaceChar with
      | c :: r2 =>
        if c.isUpper then some (c :: r2.takeWhile isWordChar, r2.dropWhile isWordChar)
        else none
      | [] => none
  | _ => none

/-- Remainder of the input after the last "=>" that occurs before the next
newline; none when no such arrow exists.  This is the greedy ".*=>" tail of
the const-arrow pattern (the dot of the source regex does not cross a
newline). -/
def findLastArrow : List Char → Option (List Char)
  | '=' :: '>' :: rest =>
    match findLastArrow rest with
    | some r => some r
    | none => some rest
  | '\n' :: _ => none
  | _ :: rest => findLastArrow rest
  | [] => none

/-- Matcher for the pattern:  const  backslash-s+  ([A-Z] word*)  backslash-s*
=  .*  =>  . -/
def matchConstArrow : List Char → Option (List Char × List Char)
  | 'c' :: 'o' :: 'n' :: 's' :: 't' :: rest =>
    if (rest.takeWhile isSpaceChar) = [] then none
    else
      match rest.dropWhile isSpaceChar with
      | c :: r2 =>
        if c.isUpper then
          match (r2.dropWhile isWordChar).dropWhile isSpaceChar with
          | '=' :: r5 =>
            match findLastArrow r5 with
            | some r6 => some (c :: r2.takeWhile isWordChar, r6)
            | none => none
          | _ => none
        else none
      | [] => none
  | _ => none

/-- Matcher for the hook pattern:  use ([A-Z] word*).  The source keeps
group 0, the full match. -/
def matchHook : List Char → Option (List Char × List Char)
  | 'u' :: 's' :: 'e' :: c :: rest =>
    if c.isUpper then
      some ('u' :: 's' :: 'e' :: c :: rest.takeWhile isWordChar, rest.dropWhile isWordChar)
    else none
  | _ => none

/-- Matcher for the event pattern:  on [A-Z] word*  backslash-s*  =  .  The
source keeps group 0 (handler name, the whitespace run, and the equals sign). -/
def matchEvent : List Char → Option (List Char × List Char)
  | 'o' :: 'n' :: c :: rest =>
    if c.isUpper then
      match (rest.dropWhile isWordChar).dropWhile isSpaceChar with
      | '=' :: r3 =>
        some ('o' :: 'n' :: c ::
          (rest.takeWhile isWordChar ++ (rest.dropWhile isWordChar).takeWhile isSpaceChar ++ ['=']), r3)
      | _ => none
    else none
  | _ => none

/-- Matcher for:  className=  quote  ([word space hyphen]+)  quote.  The two
quotes are matched independently, as in the source class ["'] . -/
def matchClassName : List Char → Option (List Char × List Char)
  | 'c' :: 'l' :: 'a' :: 's' :: 's' :: 'N' :: 'a' :: 'm' :: 'e' :: '=' :: q1 :: r1 =>
    if q1 = '"' || q1 = '\'' then
      if (r1.takeWhile isClassChar) = [] then none
      else
        match r1.dropWhile isClassChar with
        | q2 :: r3 =>
          if q2 = '"' || q2 = '\'' then some (r1.takeWhile isClassChar, r3) else none
        | [] => none
    else none
  | _ => none

/-- Matcher for:  class_name=  quote  ([word space hyphen]+)  quote  (Python
mode of extract_styling). -/
def matchPyClassName : List Char → Option (List Char × List Char)
  | 'c' :: 'l' :: 'a' :: 's' :: 's' :: '_' :: 'n' :: 'a' :: 'm' :: 'e' :: '=' :: q1 :: r1 =>
    if q1 = '"' || q1 = '\'' then
      if (r1.takeWhile isClassChar) = [] then none
      else
        match r1.dropWhile isClassChar with
        | q2 :: r3 =>
          if q2 = '"' || q2 = '\'' then some (r1.takeWhile isClassChar, r3) else none
        | [] => none
    else none
  | _ => none

/-- Matcher for the inline-style pattern:  style=  open-brace  ([^close]+)
close-brace. -/
def matchStyleBrace : List Char → Option (List Char × List Char)
  | 's' :: 't' :: 'y' :: 'l' :: 'e' :: '=' :: '{' :: rest =>
    if (rest.takeWhile (fun c => c != '}')) = [] then none
    else
      match rest.dropWhile (fun c => c != '}') with
      | '}' :: r2 => some (rest.takeWhile (fun c => c != '}'), r2)
      | _ => none
  | _ => none

/-- Leftmost non-overlapping scan of re.finditer: try the matcher at every
position, and on success resume after the consumed part.  The fuel is the
input length; every matcher consumes at least one character on success, so
the fuel never runs out. -/
def scanAux (m : List Char → Option (List Char × List Char)) : Nat → List Char → List (List Char)
  | 0, _ => []
  | _ + 1, [] => []
  | fuel + 1, c :: cs =>
    match m (c :: cs) with
    | some (cap, rest) => cap :: scanAux m fuel rest
    | none => scanAux m fuel cs

/-- All captures of the leftmost non-overlapping scan of the matcher. -/
def scanAll (m : List Char → Option (List Char × List Char)) (l : List Char) : List (List Char) :=
  scanAux m l.length l

/-- InteractiveCodingAnalyzer.extract_components (lines 100-129). -/
def extract_components (code : List Char) (language : String) : List (List Char) :=
  if language = "javascript" ∨ language = "typescript" then
    (scanAll matchFunctionComp code ++ scanAll matchConstArrow code).dedup
  else if language = "python" then
    (scanAll matchClassComp code).dedup
  else []

/-- InteractiveCodingAnalyzer.extract_hooks (lines 131-149). -/
def extract_hooks (code : List Char) (language : String) : List (List Char) :=
  if language = "javascript" ∨ language = "typescript" then
    (scanAll matchHook code).dedup
  else []

/-- InteractiveCodingAnalyzer.extract_event_handlers (lines 151-169): each
group-0 match has every equals sign removed by str.replace, then the results
are deduplicated. -/
def extract_event_handlers (code : List Char) (language : String) : List (List Char) :=
  if language = "javascript" ∨ language = "typescript" then
    ((scanAll matchEvent code).map (List.filter (fun c => c != '='))).dedup
  else []

/-- InteractiveCodingAnalyzer.extract_styling (lines 171-200). -/
def extract_styling (code : List Char) (language : String) : List (List Char) :=
  if language = "javascript" ∨ language = "typescript" then
    (scanAll matchClassName code ++ scanAll matchStyleBrace code).dedup
  else if language = "python" then
    (scanAll matchPyClassName code).dedup
  else []

/-- The four extraction sets assembled by analyze_code (lines 374-379). -/
structure AnalysisData where
  components : List (List Char)
  hooks : List (List Char)
  events : List (List Char)
  styling : List (List Char)

/-- InteractiveCodingAnalyzer.determine_change_type (lines 202-226).  The
Python membership test "useState" in h is substring containment, embedded as
list-infix. -/
def determine_change_type (d : AnalysisData) : String :=
  if !d.hooks.isEmpty &&
      d.hooks.any (fun h => decide ("useState".toList <:+: h) || decide ("useReducer".toList <:+: h)) then
    "state_management"
  else if !d.hooks.isEmpty && d.hooks.any (fun h => decide ("useEffect".toList <:+: h)) then
    "side_effects"
  else if !d.events.isEmpty then "event_handling"
  else if !d.styling.isEmpty then "styling"
  else if !d.components.isEmpty then "component_structure"
  else "general_coding"

/-- InteractiveCodingAnalyzer.get_affected_elements (lines 228-249): the
static table with its fallback entry. -/
def get_affected_elements (change_type : String) : List String :=
  if change_type = "state_management" then
    ["component-tree", "data-flow", "render-cycle", "state-updates"]
  else if change_type = "side_effects" then
    ["lifecycle", "api-calls", "subscriptions", "cleanup"]
  else if change_type = "event_handling" then
    ["user-interaction", "state-updates", "ui-changes", "event-flow"]
  else if change_type = "styling" then
    ["visual-layout", "css-rendering", "responsive-design", "style-cascade"]
  else if change_type = "component_structure" then
    ["component-hierarchy", "props-flow", "composition-pattern"]
  else if change_type = "general_coding" then
    ["code-structure", "javascript-execution", "logic-flow"]
  else ["general-concepts"]

/-- InteractiveCodingAnalyzer.generate_explanation (lines 251-273); the
analysis_data parameter of the source is unused there and omitted here. -/
def generate_explanation (change_type : String) : String :=
  if change_type = "state_management" then
    "State management creates reactive data that automatically triggers UI updates. Your component now manages dynamic data that flows through the render cycle."
  else if change_type = "side_effects" then
    "Side effects handle interactions with external systems like APIs, timers, or subscriptions. This controls when your component interacts with the outside world."
  else if change_type = "event_handling" then
    "Event handlers create interactive user experiences by responding to user actions like clicks, input changes, and form submissions."
  else if change_type = "styling" then
    "Styling controls the visual presentation of your components. CSS classes and styles are applied during rendering to create the final appearance."
  else if change_type = "component_structure" then
    "Components are the building blocks of React applications. They encapsulate logic, state, and presentation into reusable pieces."
  else
    "This code affects how your application behaves and renders. Understanding these patterns helps build more effective software."

/-- InteractiveCodingAnalyzer.calculate_confidence (lines 275-293): 0.5 base,
sequential increments 0.2 / 0.2 / 0.15 / 0.15 for non-empty sets, capped by
min with 1.0. -/
def calculate_confidence (d : AnalysisData) : ℚ :=
  let confidence : ℚ := 1/2
  let confidence := if !d.components.isEmpty then confidence + 1/5 else confidence
  let confidence := if !d.hooks.isEmpty then confidence + 1/5 else confidence
  let confidence := if !d.events.isEmpty then confidence + 3/20 else confidence
  let confidence := if !d.styling.isEmpty then confidence + 3/20 else confidence
  min 1 confidence

/-- InteractiveCodingAnalyzer.get_suggestions (lines 295-341); the
analysis_data parameter of the source is unused there and omitted here. -/
def get_suggestions (change_type : String) : List String :=
  if change_type = "state_management" then
    ["Use functional updates for state: setState(prev => prev + 1)",
     "Keep state minimal and flat",
     "Consider useReducer for complex state logic"]
  else if change_type = "side_effects" then
    ["Always include dependencies in useEffect array",
     "Clean up subscriptions in the return function",
     "Use async/await carefully in useEffect"]
  else if change_type = "event_handling" then
    ["Use useCallback to optimize event handlers",
     "Handle errors gracefully in event handlers",
     "Prevent default behavior when necessary"]
  else if change_type = "styling" then
    ["Use CSS modules or styled-components for better maintainability",
     "Follow consistent naming conventions",
     "Consider responsive design patterns"]
  else if change_type = "component_structure" then
    ["Keep components small and focused",
     "Extract reusable logic to custom hooks",
     "Use proper prop validation"]
  else
    ["Write clean, readable code",
     "Add meaningful comments",
     "Follow established coding standards"]

/-- Line 365: analysis_id is the string "analysis_" followed by the integer
millisecond clock reading, and nothing else; the second argument stands for
the invocation (two concurrent calls can read the same millisecond) and is
not used by the source. -/
def mintAnalysisId (tms _invocation : Nat) : String := "analysis_" ++ toString tms

/-- Line 438: video_id, minted exactly like analysis_id. -/
def mintVideoId (tms _invocation : Nat) : String := "video_" ++ toString tms

/-- Request model CodeAnalysisRequest (lines 33-44); the opaque context map
is irrelevant to every claim and omitted. -/
structure CodeAnalysisRequest where
  code : List Char
  language : String
  user_id : Option String
  session_id : Option String

/-- The stored analysis dictionary built by analyze_code (lines 392-410).
The creation timestamp is a Nat (microsecond count); the ISO string stored by
the source is ordered like the underlying instant. -/
structure AnalysisRecord where
  analysis_id : String
  timestamp : Nat
  code : List Char
  language : String
  change_type : String
  affected_elements : List String
  components : List (List Char)
  hooks : List (List Char)
  events : List (List Char)
  styling : List (List Char)
  explanation : String
  confidence : ℚ
  suggestions : List String
  significant_change : Bool
  user_id : Option String
  session_id : Option String

/-- analyze_code (lines 346-417): extract, classify, derive content, assemble
the record.  tms is the millisecond clock read used for the id, invocation
distinguishes same-instant calls, nowTs the creation timestamp. -/
def analyzeCode (req : CodeAnalysisRequest) (tms invocation nowTs : Nat) : AnalysisRecord :=
  let components := extract_components req.code req.language
  let hooks := extract_hooks req.code req.language
  let events := extract_event_handlers req.code req.language
  let styling := extract_styling req.code req.language
  let analysis_data : AnalysisData := ⟨components, hooks, events, styling⟩
  let change_type := determine_change_type analysis_data
  { analysis_id := mintAnalysisId tms invocation
    timestamp := nowTs
    code := req.code
    language := req.language
    change_type := change_type
    affected_elements := get_affected_elements change_type
    components := components
    hooks := hooks
    events := events
    styling := styling
    explanation := generate_explanation change_type
    confidence := calculate_confidence analysis_data
    suggestions := get_suggestions change_type
    significant_change := !components.isEmpty || !hooks.isEmpty || !events.isEmpty || !styling.isEmpty
    user_id := req.user_id
    session_id := req.session_id }

/-- Request model VideoGenerationRequest (lines 66-73). -/
structure VideoGenRequest where
  analysis_id : String
  change_type : String
  code_snippet : String
  explanation : String
  affected_elements : List String
  title : Option String

/-- The video_status dictionary stored in video_generation_status (lines
441-451) together with the error field written by the failure branch. -/
structure VideoJob where
  video_id : String
  analysis_id : String
  title : String
  status : String
  progress : Nat
  video_url : Option String
  thumbnail_url : Option String
  duration : Option Nat
  generated_at : Option String
  error : Option String

/-- str.replace applied to the change type on line 450: every underscore
becomes a space. -/
def spaceUnderscores (s : String) : String :=
  String.mk (s.toList.map (fun c => if c = '_' then ' ' else c))

/-- generate_video (lines 419-468): mints video_id, builds the pending job
(progress 0), stores it and returns it.  The function never consults the
analysis storage; Python "request.title or default" treats an empty supplied
title like a missing one. -/
def generate_video (req : VideoGenRequest) (tms invocation : Nat) : VideoJob :=
  { video_id := mintVideoId tms invocation
    analysis_id := req.analysis_id
    title :=
      match req.title with
      | some t => if t = "" then "Understanding: " ++ spaceUnderscores req.change_type else t
      | none => "Understanding: " ++ spaceUnderscores req.change_type
    status := "pending"
    progress := 0
    video_url := none
    thumbnail_url := none
    duration := none
    generated_at := none
    error := none }

/-- The successive states of a job record during generate_video_background
(lines 540-579) when no fault occurs: status to "generating" (line 557), then
progress 10 (line 558), the loop checkpoints 20, 40, 60, 80, and the final
completed update. -/
def successStates (j : VideoJob) (now : String) : List VideoJob :=
  [ j,
    { j with status := "generating" },
    { j with status := "generating", progress := 10 },
    { j with status := "generating", progress := 20 },
    { j with status := "generating", progress := 40 },
    { j with status := "generating", progress := 60 },
    { j with status := "generating", progress := 80 },
    { j with
      status := "completed"
      progress := 100
      video_url := some ("/videos/" ++ j.video_id ++ ".webm")
      thumbnail_url := some ("/thumbnails/" ++ j.video_id ++ ".jpg")
      duration := some 8
      generated_at := some now } ]

/-- The whole sequence of states a job passes through, from creation onward.
A failure point k means the exception fires after the first k+1 states of the
normal run (it can fire anywhere inside the try block before the final
update); the except branch sets status "failed" and leaves progress as it
was. -/
def videoTrace (j : VideoJob) (now : String) (failure : Option (Fin 7 × String)) : List VideoJob :=
  match failure with
  | none => successStates j now
  | some (k, e) =>
    let lastState := (successStates j now).getD k.val j
    (successStates j now).take (k.val + 1) ++
      [{ lastState with status := "failed", error := some e }]

/-- Sort order of get_user_history line 532: by creation time, most recent
first. -/
def histOrd (a b : AnalysisRecord) : Prop := b.timestamp ≤ a.timestamp

instance : DecidableRel histOrd :=
  fun a b => inferInstanceAs (Decidable (b.timestamp ≤ a.timestamp))

/-- Python list slicing xs[:stop]: a non-negative stop keeps the first stop
elements; a negative stop drops the last |stop| elements. -/
def pySliceStop {α : Type} (xs : List α) (stop : Int) : List α :=
  if 0 ≤ stop then xs.take stop.toNat
  else xs.take (xs.length - (-stop).toNat)

/-- Response of get_user_history (lines 511-538). -/
structure UserHistory where
  user_id : String
  total_analyses : Nat
  analyses : List AnalysisRecord

/-- get_user_history (lines 511-538): filter the stored records by user_id,
sort by creation time descending, slice to the limit. -/
def get_user_history (store : List AnalysisRecord) (user_id : String) (limit : Int) : UserHistory :=
  let user_analyses := store.filter (fun a => a.user_id == some user_id)
  let sorted := List.insertionSort histOrd user_analyses
  { user_id := user_id
    total_analyses := user_analyses.length
    analyses := pySliceStop sorted limit }

/-- A hook name that denotes state holding, in the words of the claim: it
contains a state-style or reducer-style name. -/
def IsStateHookName (h : List Char) : Prop :=
  "useState".toList <:+: h ∨ "useReducer".toList <:+: h

instance (h : List Char) : Decidable (IsStateHookName h) :=
  inferInstanceAs (Decidable (_ ∨ _))

/-- A hook name that denotes a side-effect lifecycle, in the words of the
claim. -/
def IsEffectHookName (h : List Char) : Prop := "useEffect".toList <:+: h

instance (h : List Char) : Decidable (IsEffectHookName h) :=
  inferInstanceAs (Decidable (_ <:+: _))

/-- The classifier cascade exactly as the specification words it: a fixed
ordered cascade of predicates, first match wins. -/
def changeTypeSpec (d : AnalysisData) : String :=
  if ∃ h ∈ d.hooks, IsStateHookName h then "state_management"
  else if ∃ h ∈ d.hooks, IsEffectHookName h then "side_effects"
  else if d.events ≠ [] then "event_handling"
  else if d.styling ≠ [] then "styling"
  else if d.components ≠ [] then "component_structure"
  else "general_coding"

/-- A handler name in the words of the claim: "on" followed by a capitalized
word. -/
def isHandlerName : List Char → Bool
  | 'o' :: 'n' :: c :: w => c.isUpper && w.all isWordChar
  | _ => false

/-- Boolean prefix test (explicit, to keep proofs self-contained). -/
def matchesFront : List Char → List Char → Bool
  | [], _ => true
  | _ :: _, [] => false
  | a :: as, b :: bs => a == b && matchesFront as bs

/-- Some position strictly inside the code, preceded by a non-word character,
starts with the handler name immediately followed by an equals sign. -/
def occAtBoundary (name : List Char) : List Char → Bool
  | [] => false
  | d :: rest => (!isWordChar d && matchesFront (name ++ ['=']) rest) || occAtBoundary name rest

/-- The claim's notion of an event-handler occurrence: a token (its start not
preceded by a word character) of the form "on" plus capitalized word,
immediately followed by the assignment operator. -/
def tokenEventOcc (code name : List Char) : Bool :=
  isHandlerName name && (matchesFront (name ++ ['=']) code || occAtBoundary name code)

/-- A concrete stored analysis record used to exercise get_user_history. -/
def mkSample (ts : Nat) : AnalysisRecord :=
  { analysis_id := "analysis_" ++ toString ts
    timestamp := ts
    code := []
    language := "javascript"
    change_type := "general_coding"
    affected_elements := []
    components := []
    hooks := []
    events := []
    styling := []
    explanation := ""
    confidence := 1/2
    suggestions := []
    significant_change := false
    user_id := some "u"
    session_id := none }

theorem notEmpty_iff (l : List (List Char)) : (!l.isEmpty) = true ↔ l ≠ [] := by
  cases l with
  | nil => simp
  | cons a t => simp

theorem hooks_cond_state (l : List (List Char)) :
    (!l.isEmpty &&
      l.any (fun h => decide ("useState".toList <:+: h) || decide ("useReducer".toList <:+: h))) = true ↔
      ∃ h ∈ l, IsStateHookName h := by
  rw [Bool.and_eq_true, List.any_eq_true]
  constructor
  · rintro ⟨-, h, hm, hp⟩
    refine ⟨h, hm, ?_⟩
    simpa [IsStateHookName, Bool.or_eq_true, decide_eq_true_eq] using hp
  · rintro ⟨h, hm, hp⟩
    refine ⟨?_, h, hm, ?_⟩
    · cases l with
      | nil => exact absurd hm (List.not_mem_nil h)
      | cons a t => rfl
    · simpa [IsStateHookName, Bool.or_eq_true, decide_eq_true_eq] using hp

theorem hooks_cond_effect (l : List (List Char)) :
    (!l.isEmpty && l.any (fun h => decide ("useEffect".toList <:+: h))) = true ↔
      ∃ h ∈ l, IsEffectHookName h := by
  rw [Bool.and_eq_true, List.any_eq_true]
  constructor
  · rintro ⟨-, h, hm, hp⟩
    exact ⟨h, hm, by simpa [IsEffectHookName, decide_eq_true_eq] using hp⟩
  · rintro ⟨h, hm, hp⟩
    refine ⟨?_, h, hm, ?_⟩
    · cases l with
      | nil => exact absurd hm (List.not_mem_nil h)
      | cons a t => rfl
    · simpa [IsEffectHookName, decide_eq_true_eq] using hp

/-- Claim C1: the classifier is the fixed ordered cascade of the
specification (first predicate that matches wins), and whenever the hook set
contains a state-holding name the result is state_management no matter what
else is present. -/
theorem claim1_classifier_cascade (d : AnalysisData) :
    determine_change_type d = changeTypeSpec d ∧
    ((∃ h ∈ d.hooks, IsStateHookName h) → determine_change_type d = "state_management") := by
  have e1 := hooks_cond_state d.hooks
  have e2 := hooks_cond_effect d.hooks
  constructor
  · unfold determine_change_type changeTypeSpec
    simp only [e1, e2, notEmpty_iff]
  · intro hs
    unfold determine_change_type
    rw [if_pos (e1.mpr hs)]

/-- Closed witness for claim C1: a hook set holding useState forces
state_management even though every other extraction set is non-empty. -/
theorem claim1_witness :
    determine_change_type
      ⟨[['C']], ["useState".toList, "useEffect".toList], [['o', 'n', 'A']], [['b']]⟩ =
      "state_management" :=
  (claim1_classifier_cascade
    ⟨[['C']], ["useState".toList, "useEffect".toList], [['o', 'n', 'A']], [['b']]⟩).2 (by decide)

/-- Claim C2 (refuted by the code): the id minting of analyze_code and
generate_video depends on nothing but the millisecond clock reading, so two
distinct invocations that observe the same millisecond receive the same id
string. -/
theorem claim2_id_collision :
    mintAnalysisId 1760000000000 0 = mintAnalysisId 1760000000000 1 ∧
    mintVideoId 1760000000000 0 = mintVideoId 1760000000000 1 ∧
    mintAnalysisId 1760000000000 0 = "analysis_1760000000000" :=
  ⟨rfl, rfl, by decide⟩

theorem calculate_confidence_eq (d : AnalysisData) :
    calculate_confidence d =
      min 1 ((1:ℚ)/2 + (if d.components ≠ [] then 1/5 else 0) + (if d.hooks ≠ [] then 1/5 else 0)
        + (if d.events ≠ [] then 3/20 else 0) + (if d.styling ≠ [] then 3/20 else 0)) := by
  rcases e1 : d.components with _ | ⟨a1, t1⟩ <;> rcases e2 : d.hooks with _ | ⟨a2, t2⟩ <;>
    rcases e3 : d.events with _ | ⟨a3, t3⟩ <;> rcases e4 : d.styling with _ | ⟨a4, t4⟩ <;>
    simp [calculate_confidence, e1, e2, e3, e4]

/-- Claim C3: the confidence is the 0.5 base plus 0.20 / 0.20 / 0.15 / 0.15
for the non-empty sets clamped at 1.0; with all four sets non-empty it is
exactly 1.0, and it always lies in [0, 1]. -/
theorem claim3_confidence_formula (d : AnalysisData) :
    calculate_confidence d =
      min 1 ((1:ℚ)/2 + (if d.components ≠ [] then 1/5 else 0) + (if d.hooks ≠ [] then 1/5 else 0)
        + (if d.events ≠ [] then 3/20 else 0) + (if d.styling ≠ [] then 3/20 else 0)) ∧
    (d.components ≠ [] → d.hooks ≠ [] → d.events ≠ [] → d.styling ≠ [] →
      calculate_confidence d = 1) ∧
    0 ≤ calculate_confidence d ∧ calculate_confidence d ≤ 1 := by
  refine ⟨calculate_confidence_eq d, ?_, ?_, ?_⟩
  · intro h1 h2 h3 h4
    rw [calculate_confidence_eq, if_pos h1, if_pos h2, if_pos h3, if_pos h4]
    norm_num
  · rw [calculate_confidence_eq]
    split_ifs <;> norm_num
  · rw [calculate_confidence_eq]
    exact min_le_left _ _

/-- Closed witness for claim C3: all four sets non-empty gives confidence
exactly 1 although the raw increments sum to 1.2. -/
theorem claim3_witness :
    calculate_confidence ⟨[['C']], [['u']], [['o']], [['b']]⟩ = 1 :=
  (claim3_confidence_formula ⟨[['C']], [['u']], [['o']], [['b']]⟩).2.1
    (by decide) (by decide) (by decide) (by decide)

/-- Claim C9: confidence is monotone; if every category that is non-empty in
the first quadruple is non-empty in the second, the first confidence is at
most the second. -/
theorem claim9_confidence_monotone (d1 d2 : AnalysisData)
    (hc : d1.components ≠ [] → d2.components ≠ [])
    (hh : d1.hooks ≠ [] → d2.hooks ≠ [])
    (he : d1.events ≠ [] → d2.events ≠ [])
    (hs : d1.styling ≠ [] → d2.styling ≠ []) :
    calculate_confidence d1 ≤ calculate_confidence d2 := by
  have key : ∀ (p q : Prop) [Decidable p] [Decidable q] (a : ℚ), 0 ≤ a → (p → q) →
      (if p then a else 0) ≤ (if q then a else 0) := by
    intro p q ip iq a ha hpq
    split_ifs with hp hq
    · exact le_refl a
    · exact absurd (hpq hp) hq
    · exact ha
    · exact le_refl 0
  rw [calculate_confidence_eq, calculate_confidence_eq]
  refine min_le_min (le_refl 1) ?_
  have g1 := key (d1.components ≠ []) (d2.components ≠ []) ((1:ℚ)/5) (by norm_num) hc
  have g2 := key (d1.hooks ≠ []) (d2.hooks ≠ []) ((1:ℚ)/5) (by norm_num) hh
  have g3 := key (d1.events ≠ []) (d2.events ≠ []) ((3:ℚ)/20) (by norm_num) he
  have g4 := key (d1.styling ≠ []) (d2.styling ≠ []) ((3:ℚ)/20) (by norm_num) hs
  exact add_le_add (add_le_add (add_le_add (add_le_add (le_refl _) g1) g2) g3) g4

/-- Closed witness for claim C9: the empty quadruple scores at most a
quadruple with a component present. -/
theorem claim9_witness :
    calculate_confidence ⟨[], [], [], []⟩ ≤ calculate_confidence ⟨[['C']], [], [], []⟩ :=
  claim9_confidence_monotone ⟨[], [], [], []⟩ ⟨[['C']], [], [], []⟩
    (fun h => absurd rfl h) (fun h => absurd rfl h) (fun h => absurd rfl h) (fun h => absurd rfl h)

/-- Claim C4: when every extraction set is empty, the analysis succeeds and
the record carries change type general_coding, significant_change false and
confidence one half. -/
theorem claim4_empty_extraction_defaults (req : CodeAnalysisRequest) (tms invocation nowTs : Nat)
    (hc : extract_components req.code req.language = [])
    (hh : extract_hooks req.code req.language = [])
    (he : extract_event_handlers req.code req.language = [])
    (hs : extract_styling req.code req.language = []) :
    (analyzeCode req tms invocation nowTs).change_type = "general_coding" ∧
    (analyzeCode req tms invocation nowTs).significant_change = false ∧
    (analyzeCode req tms invocation nowTs).confidence = 1/2 := by
  unfold analyzeCode
  simp only [hc, hh, he, hs]
  refine ⟨rfl, rfl, ?_⟩
  show calculate_confidence ⟨[], [], [], []⟩ = 1/2
  rw [calculate_confidence_eq]
  norm_num

/-- Closed witness for claim C4: the empty code string in javascript mode
yields general_coding, no significant change and confidence one half. -/
theorem claim4_witness :
    (analyzeCode ⟨[], "javascript", none, none⟩ 0 0 0).change_type = "general_coding" ∧
    (analyzeCode ⟨[], "javascript", none, none⟩ 0 0 0).significant_change = false ∧
    (analyzeCode ⟨[], "javascript", none, none⟩ 0 0 0).confidence = 1/2 :=
  claim4_empty_extraction_defaults ⟨[], "javascript", none, none⟩ 0 0 0 rfl rfl rfl rfl

/-- Claim C10: generate_video never consults the analysis store; whatever
that store holds (in particular when it has no record with the requested
analysis_id) it returns a pending job with progress 0, back-reference equal
to the supplied analysis_id, and the default title obtained from the change
type when no title was supplied. -/
theorem claim10_video_job_no_lookup (astore : List AnalysisRecord) (req : VideoGenRequest)
    (tms invocation : Nat)
    (hmiss : ∀ a ∈ astore, a.analysis_id ≠ req.analysis_id) :
    (generate_video req tms invocation).status = "pending" ∧
    (generate_video req tms invocation).progress = 0 ∧
    (generate_video req tms invocation).analysis_id = req.analysis_id ∧
    (req.title = none →
      (generate_video req tms invocation).title =
        "Understanding: " ++ spaceUnderscores req.change_type) := by
  refine ⟨rfl, rfl, rfl, fun ht => ?_⟩
  simp [generate_video, ht]

/-- Closed witness for claim C10: a request whose analysis_id is stored
nowhere still yields a pending job with the default title. -/
theorem claim10_witness :
    (generate_video ⟨"missing", "state_management", "c", "e", [], none⟩ 7 0).status = "pending" ∧
    (generate_video ⟨"missing", "state_management", "c", "e", [], none⟩ 7 0).analysis_id =
      "missing" ∧
    (generate_video ⟨"missing", "state_management", "c", "e", [], none⟩ 7 0).title =
      "Understanding: " ++ spaceUnderscores "state_management" := by
  have h := claim10_video_job_no_lookup []
    ⟨"missing", "state_management", "c", "e", [], none⟩ 7 0 (by simp)
  exact ⟨h.1, h.2.2.1, h.2.2.2 rfl⟩

/-- Claim C5: over the whole sequence of states a video job passes through
(creation in pending with progress 0, then the background task's updates,
with an optional failure point), progress is non-decreasing, progress is 100
exactly in the completed state, and a terminal state (completed or failed)
occurs only as the last state, so every later status query returns that same
terminal snapshot. -/
theorem claim5_video_job_invariants (req : VideoGenRequest) (tms invocation : Nat) (now : String)
    (failure : Option (Fin 7 × String)) :
    List.Chain' (fun a b => a.progress ≤ b.progress)
        (videoTrace (generate_video req tms invocation) now failure) ∧
    (∀ s ∈ videoTrace (generate_video req tms invocation) now failure,
        (s.progress = 100 ↔ s.status = "completed")) ∧
    (∀ s ∈ (videoTrace (generate_video req tms invocation) now failure).dropLast,
        s.status ≠ "completed" ∧ s.status ≠ "failed") := by
  rcases failure with _ | ⟨k, e⟩
  · refine ⟨?_, ?_, ?_⟩ <;>
      simp [videoTrace, successStates, generate_video, List.chain'_cons,
        List.forall_mem_cons, List.dropLast]
  · fin_cases k <;> refine ⟨?_, ?_, ?_⟩ <;>
      simp [videoTrace, successStates, generate_video, List.chain'_cons,
        List.forall_mem_cons, List.dropLast]

/-- Closed witness for claim C5: the freshly created job itself satisfies the
progress/status correspondence. -/
theorem claim5_witness :
    ((generate_video ⟨"a", "styling", "c", "e", [], none⟩ 1 0).progress = 100 ↔
      (generate_video ⟨"a", "styling", "c", "e", [], none⟩ 1 0).status = "completed") :=
  (claim5_video_job_invariants ⟨"a", "styling", "c", "e", [], none⟩ 1 0 "t" none).2.1
    (generate_video ⟨"a", "styling", "c", "e", [], none⟩ 1 0)
    (by simp [videoTrace, successStates])

/-- Claim C6: every extractor is total and returns a duplicate-free list, and
languages outside the recognized set of an extractor yield the empty list
(for hooks and events the recognized set is the JS family alone). -/
theorem claim6_extractors_total (code : List Char) (language : String) :
    (extract_components code language).Nodup ∧
    (extract_hooks code language).Nodup ∧
    (extract_event_handlers code language).Nodup ∧
    (extract_styling code language).Nodup ∧
    (language ≠ "javascript" → language ≠ "typescript" → language ≠ "python" →
      extract_components code language = [] ∧ extract_styling code language = []) ∧
    (language ≠ "javascript" → language ≠ "typescript" →
      extract_hooks code language = [] ∧ extract_event_handlers code language = []) := by
  by_cases hjs : language = "javascript" ∨ language = "typescript"
  · refine ⟨?_, ?_, ?_, ?_, ?_, ?_⟩
    · unfold extract_components; rw [if_pos hjs]; exact List.nodup_dedup _
    · unfold extract_hooks; rw [if_pos hjs]; exact List.nodup_dedup _
    · unfold extract_event_handlers; rw [if_pos hjs]; exact List.nodup_dedup _
    · unfold extract_styling; rw [if_pos hjs]; exact List.nodup_dedup _
    · intro h1 h2 _
      rcases hjs with h | h
      · exact absurd h h1
      · exact absurd h h2
    · intro h1 h2
      rcases hjs with h | h
      · exact absurd h h1
      · exact absurd h h2
  · by_cases hpy : language = "python"
    · refine ⟨?_, ?_, ?_, ?_, ?_, ?_⟩
      · unfold extract_components; rw [if_neg hjs, if_pos hpy]; exact List.nodup_dedup _
      · unfold extract_hooks; rw [if_neg hjs]; exact List.nodup_nil
      · unfold extract_event_handlers; rw [if_neg hjs]; exact List.nodup_nil
      · unfold extract_styling; rw [if_neg hjs, if_pos hpy]; exact List.nodup_dedup _
      · intro _ _ h3
        exact absurd hpy h3
      · intro _ _
        constructor
        · unfold extract_hooks; rw [if_neg hjs]
        · unfold extract_event_handlers; rw [if_neg hjs]
    · refine ⟨?_, ?_, ?_, ?_, ?_, ?_⟩
      · unfold extract_components; rw [if_neg hjs, if_neg hpy]; exact List.nodup_nil
      · unfold extract_hooks; rw [if_neg hjs]; exact List.nodup_nil
      · unfold extract_event_handlers; rw [if_neg hjs]; exact List.nodup_nil
      · unfold extract_styling; rw [if_neg hjs, if_neg hpy]; exact List.nodup_nil
      · intro _ _ _
        constructor
        · unfold extract_components; rw [if_neg hjs, if_neg hpy]
        · unfold extract_styling; rw [if_neg hjs, if_neg hpy]
      · intro _ _
        constructor
        · unfold extract_hooks; rw [if_neg hjs]
        · unfold extract_event_handlers; rw [if_neg hjs]

/-- Closed witness for claim C6: an unsupported language returns empty sets
even on code that would match in a supported mode. -/
theorem claim6_witness :
    extract_components "class Foo:".toList "ruby" = [] ∧
    extract_styling "class Foo:".toList "ruby" = [] :=
  (claim6_extractors_total "class Foo:".toList "ruby").2.2.2.2.1
    (by decide) (by decide) (by decide)

/-- Claim C8 is refuted as stated: with a negative limit (Python slicing
semantics) get_user_history can return more records than the limit allows.
Two stored records for the user and limit -1 yield one record, and 1 is not
at most -1. -/
theorem claim8_counterexample :
    ¬ (((get_user_history [mkSample 1, mkSample 2] "u" (-1)).analyses.length : Int) ≤ -1) := by
  have h : (get_user_history [mkSample 1, mkSample 2] "u" (-1)).analyses.length = 1 := by decide
  rw [h]
  decide

/-- Claim C8 amended: for every non-negative integer limit, the history holds
at most limit records and, because the id-keyed store never holds two records
of the same creation instant, is ordered strictly by descending creation
time. -/
theorem claim8_history_amended (store : List AnalysisRecord) (uid : String) (limit : Int)
    (hl : 0 ≤ limit)
    (hd : store.Pairwise (fun a b => a.timestamp ≠ b.timestamp)) :
    (((get_user_history store uid limit).analyses.length : Int) ≤ limit) ∧
    (get_user_history store uid limit).analyses.Pairwise
      (fun a b => b.timestamp < a.timestamp) := by
  have hfil : (store.filter (fun a => a.user_id == some uid)).Pairwise
      (fun a b => a.timestamp ≠ b.timestamp) :=
    List.Pairwise.sublist (List.filter_sublist store) hd
  haveI : IsTotal AnalysisRecord histOrd := ⟨fun a b => le_total b.timestamp a.timestamp⟩
  haveI : IsTrans AnalysisRecord histOrd := ⟨fun _ _ _ hab hbc => le_trans hbc hab⟩
  have hsort := List.sorted_insertionSort histOrd (store.filter (fun a => a.user_id == some uid))
  have hperm := List.perm_insertionSort histOrd (store.filter (fun a => a.user_id == some uid))
  have hnd : (List.insertionSort histOrd (store.filter (fun a => a.user_id == some uid))).Pairwise
      (fun a b => a.timestamp ≠ b.timestamp) :=
    (List.Perm.pairwise_iff (fun hxy => hxy.symm) hperm).mpr hfil
  have hlt : (List.insertionSort histOrd (store.filter (fun a => a.user_id == some uid))).Pairwise
      (fun a b => b.timestamp < a.timestamp) :=
    (List.Pairwise.and hsort hnd).imp (fun hab => lt_of_le_of_ne hab.1 hab.2.symm)
  have hana : (get_user_history store uid limit).analyses =
      pySliceStop (List.insertionSort histOrd (store.filter (fun a => a.user_id == some uid)))
        limit := rfl
  constructor
  · rw [hana]
    unfold pySliceStop
    rw [if_pos hl]
    have h3 : (List.take limit.toNat
        (List.insertionSort histOrd (store.filter (fun a => a.user_id == some uid)))).length ≤
        limit.toNat := by
      rw [List.length_take]
      exact min_le_left _ _
    have h4 := Int.toNat_of_nonneg hl
    omega
  · rw [hana]
    unfold pySliceStop
    split_ifs
    all_goals exact List.Pairwise.sublist (List.take_sublist _ _) hlt

/-- Closed witness for claim C8: with limit 5 and two distinct-instant
records the history has at most 5 entries and is strictly descending. -/
theorem claim8_witness :
    (((get_user_history [mkSample 1, mkSample 2] "u" 5).analyses.length : Int) ≤ 5) ∧
    (get_user_history [mkSample 1, mkSample 2] "u" 5).analyses.Pairwise
      (fun a b => b.timestamp < a.timestamp) :=
  claim8_history_amended [mkSample 1, mkSample 2] "u" 5 (by decide) (by decide)

theorem takeWhile_all_append {p : Char → Bool} {w : List Char} {x : Char} {t : List Char}
    (hw : ∀ a ∈ w, p a = true) (hx : p x = false) :
    (w ++ x :: t).takeWhile p = w ∧ (w ++ x :: t).dropWhile p = x :: t := by
  induction w with
  | nil =>
    constructor
    · simp only [List.nil_append]
      exact List.takeWhile_cons_of_neg (by simp [hx])
    · simp only [List.nil_append]
      exact List.dropWhile_cons_of_neg (by simp [hx])
  | cons a as ih =>
    have ha : p a = true := hw a (List.mem_cons_self a as)
    have hrest := ih (fun b hb => hw b (List.mem_cons_of_mem a hb))
    constructor
    · simp only [List.cons_append, List.takeWhile_cons_of_pos ha, hrest.1]
    · simp only [List.cons_append, List.dropWhile_cons_of_pos ha, hrest.2]

theorem matchesFront_iff (n : List Char) : ∀ l, matchesFront n l = true ↔ ∃ t, l = n ++ t := by
  induction n with
  | nil =>
    intro l
    simp [matchesFront]
  | cons a as ih =>
    intro l
    cases l with
    | nil => simp [matchesFront]
    | cons b bs =>
      rw [show matchesFront (a :: as) (b :: bs) = (a == b && matchesFront as bs) from rfl]
      rw [Bool.and_eq_true, beq_iff_eq, ih bs]
      constructor
      · rintro ⟨rfl, t, rfl⟩
        exact ⟨t, rfl⟩
      · rintro ⟨t, ht⟩
        rw [List.cons_append] at ht
        injection ht with h1 h2
        exact ⟨h1.symm, t, h2⟩

theorem isWordChar_of_isUpper {c : Char} (h : c.isUpper = true) : isWordChar c = true := by
  have ha : c.isAlpha = true := by
    unfold Char.isAlpha
    rw [h, Bool.true_or]
  unfold isWordChar
  rw [ha, Bool.true_or, Bool.true_or]

theorem not_word_of_space {c : Char} (h : isSpaceChar c = true) : isWordChar c = false := by
  unfold isSpaceChar at h
  simp only [Bool.or_eq_true, decide_eq_true_eq] at h
  rcases h with ((((rfl | rfl) | rfl) | rfl) | rfl) | rfl <;> decide

theorem isHandlerName_eq_true {name : List Char} (h : isHandlerName name = true) :
    ∃ c w, name = 'o' :: 'n' :: c :: w ∧ c.isUpper = true ∧ ∀ a ∈ w, isWordChar a = true := by
  unfold isHandlerName at h
  split at h
  · rename_i c w
    rw [Bool.and_eq_true] at h
    exact ⟨c, w, rfl, h.1, fun a ha => List.all_eq_true.mp h.2 a ha⟩
  · simp at h

theorem matchEvent_eq_some {l cap rest : List Char} (h : matchEvent l = some (cap, rest)) :
    ∃ c w sp, c.isUpper = true ∧ (∀ a ∈ w, isWordChar a = true) ∧
      (∀ a ∈ sp, isSpaceChar a = true) ∧
      cap = 'o' :: 'n' :: c :: (w ++ sp ++ ['=']) ∧ l = cap ++ rest := by
  unfold matchEvent at h
  split at h
  · rename_i c rest0
    split at h
    · rename_i hc
      split at h
      · rename_i r3 heq
        rw [Option.some.injEq, Prod.mk.injEq] at h
        refine ⟨c, rest0.takeWhile isWordChar, (rest0.dropWhile isWordChar).takeWhile isSpaceChar,
          hc, fun a ha => List.mem_takeWhile_imp ha, fun a ha => List.mem_takeWhile_imp ha,
          h.1.symm, ?_⟩
        rw [← h.1, ← h.2]
        have key : (rest0.takeWhile isWordChar ++
            (rest0.dropWhile isWordChar).takeWhile isSpaceChar ++ ['=']) ++ r3 = rest0 := by
          rw [List.append_assoc, List.append_assoc]
          rw [show (['='] : List Char) ++ r3 = '=' :: r3 from rfl, ← heq,
            List.takeWhile_append_dropWhile, List.takeWhile_append_dropWhile]
        simp only [List.cons_append]
        rw [key]
      · simp at h
    · simp at h
  · simp at h

theorem matchEvent_front {c : Char} {w post : List Char} (hc : c.isUpper = true)
    (hw : ∀ a ∈ w, isWordChar a = true) :
    matchEvent ('o' :: 'n' :: c :: (w ++ '=' :: post)) =
      some ('o' :: 'n' :: c :: (w ++ ['=']), post) := by
  have h1 := takeWhile_all_append (p := isWordChar) (x := '=') (t := post) hw (by decide)
  have h2tw : ((w ++ '=' :: post).dropWhile isWordChar).takeWhile isSpaceChar = [] := by
    rw [h1.2]
    exact List.takeWhile_cons_of_neg (by decide)
  have h2dw : ((w ++ '=' :: post).dropWhile isWordChar).dropWhile isSpaceChar = '=' :: post := by
    rw [h1.2]
    exact List.dropWhile_cons_of_neg (by decide)
  rw [show matchEvent ('o' :: 'n' :: c :: (w ++ '=' :: post)) =
      (if c.isUpper then
        match ((w ++ '=' :: post).dropWhile isWordChar).dropWhile isSpaceChar with
        | '=' :: r3 =>
          some ('o' :: 'n' :: c ::
            ((w ++ '=' :: post).takeWhile isWordChar ++
              ((w ++ '=' :: post).dropWhile isWordChar).takeWhile isSpaceChar ++ ['=']), r3)
        | _ => none
      else none) from rfl]
  rw [if_pos hc, h2dw]
  rw [h1.1, h2tw]
  simp

theorem scanAux_event_sound : ∀ (fuel : Nat) (l cap : List Char),
    cap ∈ scanAux matchEvent fuel l →
    ∃ c w sp, c.isUpper = true ∧ (∀ a ∈ w, isWordChar a = true) ∧
      (∀ a ∈ sp, isSpaceChar a = true) ∧
      cap = 'o' :: 'n' :: c :: (w ++ sp ++ ['=']) ∧ ∃ u v, l = u ++ cap ++ v := by
  intro fuel
  induction fuel with
  | zero =>
    intro l cap h
    simp [scanAux] at h
  | succ fuel ih =>
    intro l cap h
    cases l with
    | nil => simp [scanAux] at h
    | cons a t =>
      rw [show scanAux matchEvent (fuel + 1) (a :: t) =
          (match matchEvent (a :: t) with
           | some (cap, rest) => cap :: scanAux matchEvent fuel rest
           | none => scanAux matchEvent fuel t) from rfl] at h
      cases hm : matchEvent (a :: t) with
      | none =>
        rw [hm] at h
        obtain ⟨c, w, sp, hc, hw, hsp, hcap, u, v, hdec⟩ := ih t cap h
        exact ⟨c, w, sp, hc, hw, hsp, hcap, a :: u, v, by simp [hdec]⟩
      | some pr =>
        obtain ⟨cap0, rest⟩ := pr
        rw [hm] at h
        rcases List.mem_cons.mp h with rfl | h2
        · obtain ⟨c, w, sp, hc, hw, hsp, hcap, hsplit⟩ := matchEvent_eq_some hm
          exact ⟨c, w, sp, hc, hw, hsp, hcap, [], rest, by rw [List.nil_append, hsplit]⟩
        · obtain ⟨c, w, sp, hc, hw, hsp, hcap, u, v, hdec⟩ := ih rest cap h2
          obtain ⟨c0, w0, sp0, _, _, _, _, hsplit⟩ := matchEvent_eq_some hm
          refine ⟨c, w, sp, hc, hw, hsp, hcap, cap0 ++ u, v, ?_⟩
          rw [hsplit, hdec]
          simp [List.append_assoc]

theorem word_run_unique {p : Char → Bool} : ∀ (w1 : List Char) {w2 t1 t2 : List Char},
    w1 ++ t1 = w2 ++ t2 →
    (∀ a ∈ w1, p a = true) → (∀ a ∈ w2, p a = true) →
    (∀ d, t1.head? = some d → p d = false) → (∀ d, t2.head? = some d → p d = false) →
    w1 = w2 ∧ t1 = t2 := by
  intro w1
  induction w1 with
  | nil =>
    intro w2 t1 t2 he h1 h2 hh1 hh2
    cases w2 with
    | nil =>
      simp only [List.nil_append] at he
      exact ⟨rfl, he⟩
    | cons b bs =>
      exfalso
      rw [List.nil_append, List.cons_append] at he
      have hb : p b = false := hh1 b (by rw [he]; rfl)
      have hb2 : p b = true := h2 b (List.mem_cons_self b bs)
      rw [hb2] at hb
      exact Bool.noConfusion hb
  | cons a as ih =>
    intro w2 t1 t2 he h1 h2 hh1 hh2
    cases w2 with
    | nil =>
      exfalso
      rw [List.nil_append, List.cons_append] at he
      have hb : p a = false := hh2 a (by rw [← he]; rfl)
      have hb2 : p a = true := h1 a (List.mem_cons_self a as)
      rw [hb2] at hb
      exact Bool.noConfusion hb
    | cons b bs =>
      rw [List.cons_append, List.cons_append] at he
      injection he with hab he2
      subst hab
      obtain ⟨h, h'⟩ := ih he2 (fun x hx => h1 x (List.mem_cons_of_mem a hx))
        (fun x hx => h2 x (List.mem_cons_of_mem a hx)) hh1 hh2
      exact ⟨by rw [h], h'⟩

theorem occAtBoundary_decomp {name : List Char} : ∀ {code : List Char},
    occAtBoundary name code = true →
    ∃ pre post, code = pre ++ name ++ '=' :: post ∧ pre ≠ [] ∧
      (∀ d, pre.getLast? = some d → isWordChar d = false) := by
  intro code
  induction code with
  | nil =>
    intro h
    simp [occAtBoundary] at h
  | cons d rest ih =>
    intro h
    rw [show occAtBoundary name (d :: rest) =
        ((!isWordChar d && matchesFront (name ++ ['=']) rest) || occAtBoundary name rest)
        from rfl] at h
    rw [Bool.or_eq_true, Bool.and_eq_true] at h
    rcases h with ⟨hd, hpre⟩ | h2
    · obtain ⟨t, ht⟩ := (matchesFront_iff _ _).mp hpre
      refine ⟨[d], t, by simp [ht], by simp, ?_⟩
      intro x hx
      simp only [List.getLast?_singleton, Option.some.injEq] at hx
      rw [← hx]
      simpa using hd
    · obtain ⟨pre, post, h1, h2ne, h3⟩ := ih h2
      obtain ⟨q, pre', rfl⟩ := List.exists_cons_of_ne_nil h2ne
      refine ⟨d :: q :: pre', post, by simp [h1], by simp, ?_⟩
      intro x hx
      rw [List.getLast?_cons_cons] at hx
      exact h3 x hx

theorem scanAux_event_complete : ∀ (fuel : Nat) (l pre name post : List Char),
    l.length ≤ fuel →
    l = pre ++ name ++ '=' :: post →
    isHandlerName name = true →
    (∀ d, pre.getLast? = some d → isWordChar d = false) →
    name ++ ['='] ∈ scanAux matchEvent fuel l := by
  intro fuel
  induction fuel with
  | zero =>
    intro l pre name post hlen hdec hname hb
    exfalso
    have h0 : l = [] := List.eq_nil_of_length_eq_zero (Nat.le_zero.mp hlen)
    rw [h0] at hdec
    have hL := congrArg List.length hdec
    simp [List.length_append] at hL
    omega
  | succ fuel ih =>
    intro l pre name post hlen hdec hname hb
    obtain ⟨c1, w1, hn, hc1, hw1⟩ := isHandlerName_eq_true hname
    cases l with
    | nil =>
      exfalso
      have hL := congrArg List.length hdec
      simp [List.length_append] at hL
      omega
    | cons a t =>
      rw [show scanAux matchEvent (fuel + 1) (a :: t) =
          (match matchEvent (a :: t) with
           | some (cap, rest) => cap :: scanAux matchEvent fuel rest
           | none => scanAux matchEvent fuel t) from rfl]
      cases hm : matchEvent (a :: t) with
      | none =>
        show name ++ ['='] ∈ scanAux matchEvent fuel t
        cases pre with
        | nil =>
          exfalso
          rw [List.nil_append, hn] at hdec
          simp only [List.cons_append] at hdec
          rw [hdec, matchEvent_front hc1 hw1] at hm
          exact Option.noConfusion hm
        | cons p pre2 =>
          simp only [List.cons_append] at hdec
          injection hdec with h1 h2
          apply ih t pre2 name post ?_ h2 hname ?_
          · have hlen2 : (a :: t).length ≤ fuel + 1 := hlen
            simp only [List.length_cons] at hlen2
            omega
          · intro x hx
            apply hb x
            cases pre2 with
            | nil => exact absurd hx (by simp)
            | cons q pre3 =>
              rw [List.getLast?_cons_cons]
              exact hx
      | some pr =>
        obtain ⟨cap0, rest⟩ := pr
        show name ++ ['='] ∈ cap0 :: scanAux matchEvent fuel rest
        obtain ⟨c0, w0, sp0, hc0, hw0, hsp0, hcap0, hsplit⟩ := matchEvent_eq_some hm
        have hpre_pref : pre <+: a :: t := ⟨name ++ '=' :: post, by rw [hdec, List.append_assoc]⟩
        have hcap_pref : cap0 <+: a :: t := ⟨rest, hsplit.symm⟩
        rcases Nat.lt_or_ge pre.length cap0.length with hlt | hge
        · obtain ⟨mid, hmid⟩ := List.prefix_of_prefix_length_le hpre_pref hcap_pref
            (Nat.le_of_lt hlt)
          have hmr : name ++ '=' :: post = mid ++ rest := by
            have e : pre ++ (name ++ '=' :: post) = pre ++ (mid ++ rest) := by
              calc pre ++ (name ++ '=' :: post) = a :: t := by rw [hdec, List.append_assoc]
                _ = cap0 ++ rest := hsplit
                _ = (pre ++ mid) ++ rest := by rw [hmid]
                _ = pre ++ (mid ++ rest) := List.append_assoc _ _ _
            exact List.append_cancel_left e
          cases pre with
          | nil =>
            rw [List.nil_append] at hmid
            have hmr' : ('o' :: 'n' :: c1 :: w1 : List Char) ++ '=' :: post = cap0 ++ rest := by
              rw [← hn, hmr, hmid]
            rw [hcap0] at hmr'
            simp only [List.cons_append, List.append_assoc, List.singleton_append] at hmr'
            injection hmr' with e1 hmr'
            injection hmr' with e2 hmr'
            injection hmr' with e3 hmr'
            obtain ⟨hw10, hts⟩ := word_run_unique (p := isWordChar) w1 hmr' hw1 hw0
              (by
                intro d hd
                simp only [List.head?_cons, Option.some.injEq] at hd
                rw [← hd]
                decide)
              (by
                intro d hd
                cases sp0 with
                | nil =>
                  simp only [List.nil_append, List.head?_cons, Option.some.injEq] at hd
                  rw [← hd]
                  decide
                | cons s ss =>
                  simp only [List.cons_append, List.head?_cons, Option.some.injEq] at hd
                  rw [← hd]
                  exact not_word_of_space (hsp0 s (List.mem_cons_self s ss)))
            have hsp_nil : sp0 = [] := by
              cases sp0 with
              | nil => rfl
              | cons s ss =>
                exfalso
                rw [List.cons_append] at hts
                injection hts with e4 _
                have h6 := hsp0 s (List.mem_cons_self s ss)
                rw [← e4] at h6
                exact absurd h6 (by decide)
            have hfin : cap0 = name ++ ['='] := by
              rw [hcap0, hn, hw10, ← e3, hsp_nil]
              simp
            rw [hfin]
            exact List.mem_cons_self _ _
          | cons p pre3 =>
            exfalso
            have hmid_ne : mid ≠ [] := by
              intro h0
              rw [h0, List.append_nil] at hmid
              rw [hmid] at hlt
              exact lt_irrefl _ hlt
            obtain ⟨m0, mid2, rfl⟩ := List.exists_cons_of_ne_nil hmid_ne
            have hm0 : m0 = 'o' := by
              have hmr2 := hmr
              rw [hn] at hmr2
              simp only [List.cons_append] at hmr2
              injection hmr2 with e _
              exact e.symm
            have honword : ∀ x ∈ ('o' :: 'n' :: c0 :: w0 : List Char), isWordChar x = true := by
              intro x hx
              simp only [List.mem_cons] at hx
              rcases hx with rfl | rfl | rfl | hx
              · decide
              · decide
              · exact isWordChar_of_isUpper hc0
              · exact hw0 x hx
            have honp_pref : ('o' :: 'n' :: c0 :: w0 : List Char) <+: cap0 :=
              ⟨sp0 ++ ['='], by rw [hcap0]; simp [List.append_assoc]⟩
            have hpre_cap : (p :: pre3 : List Char) <+: cap0 := ⟨m0 :: mid2, hmid⟩
            rcases Nat.le_total (p :: pre3 : List Char).length
                ('o' :: 'n' :: c0 :: w0 : List Char).length with h2 | h2
            · obtain ⟨z, hz⟩ := List.prefix_of_prefix_length_le hpre_cap honp_pref h2
              have hlast := List.getLast?_eq_getLast (p :: pre3) (by simp)
              have hdlast := hb ((p :: pre3).getLast (by simp)) hlast
              have hmem : (p :: pre3).getLast (by simp) ∈ ('o' :: 'n' :: c0 :: w0 : List Char) := by
                rw [← hz]
                exact List.mem_append_left _ (List.getLast_mem _)
              have h7 := honword _ hmem
              rw [hdlast] at h7
              exact Bool.noConfusion h7
            · obtain ⟨z, hz⟩ := List.prefix_of_prefix_length_le honp_pref hpre_cap h2
              have hze : sp0 ++ ['='] = z ++ (m0 :: mid2) := by
                have e : ('o' :: 'n' :: c0 :: w0 : List Char) ++ (sp0 ++ ['=']) =
                    ('o' :: 'n' :: c0 :: w0 : List Char) ++ (z ++ (m0 :: mid2)) := by
                  calc ('o' :: 'n' :: c0 :: w0 : List Char) ++ (sp0 ++ ['=']) = cap0 := by
                        rw [hcap0]; simp [List.append_assoc]
                    _ = (p :: pre3) ++ (m0 :: mid2) := hmid.symm
                    _ = (('o' :: 'n' :: c0 :: w0 : List Char) ++ z) ++ (m0 :: mid2) := by rw [hz]
                    _ = ('o' :: 'n' :: c0 :: w0 : List Char) ++ (z ++ (m0 :: mid2)) :=
                        List.append_assoc _ _ _
                exact List.append_cancel_left e
              have hm0mem : m0 ∈ sp0 ++ ['='] := by
                rw [hze]
                exact List.mem_append_right _ (List.mem_cons_self _ _)
              rcases List.mem_append.mp hm0mem with h5 | h5
              · have h6 := hsp0 m0 h5
                rw [hm0] at h6
                exact absurd h6 (by decide)
              · simp only [List.mem_singleton] at h5
                rw [hm0] at h5
                exact absurd h5 (by decide)
        · obtain ⟨pre2, hpre2⟩ := List.prefix_of_prefix_length_le hcap_pref hpre_pref hge
          have hrest : rest = pre2 ++ name ++ '=' :: post := by
            have e : cap0 ++ rest = cap0 ++ (pre2 ++ name ++ '=' :: post) := by
              calc cap0 ++ rest = a :: t := hsplit.symm
                _ = pre ++ name ++ '=' :: post := hdec
                _ = (cap0 ++ pre2) ++ name ++ '=' :: post := by rw [hpre2]
                _ = cap0 ++ (pre2 ++ name ++ '=' :: post) := by simp [List.append_assoc]
            exact List.append_cancel_left e
          have hlen2 : rest.length ≤ fuel := by
            have e := congrArg List.length hsplit
            have hc0ne : cap0.length ≠ 0 := by rw [hcap0]; simp
            simp only [List.length_cons, List.length_append] at e
            simp only [List.length_cons] at hlen
            omega
          apply List.mem_cons_of_mem
          apply ih rest pre2 name post hlen2 hrest hname
          intro x hx
          apply hb x
          rw [← hpre2, List.getLast?_append, hx]
          rfl

theorem word_ne_eq {a : Char} (h : isWordChar a = true) : (a != '=') = true := by
  by_cases he : a = '='
  · rw [he] at h
    exact absurd h (by decide)
  · simpa using he

theorem space_ne_eq {a : Char} (h : isSpaceChar a = true) : (a != '=') = true := by
  by_cases he : a = '='
  · rw [he] at h
    exact absurd h (by decide)
  · simpa using he

/-- Claim C7 is refuted as stated: the extractor is not the set of handler
names of immediately-assigned occurrences.  On the code "onClick =" it
returns the string "onClick " (trailing space kept, since the source pattern
admits whitespace before the assignment and the replace call strips only the
equals sign), which is not a handler name of any such occurrence. -/
theorem claim7_counterexample :
    ¬ (∀ s, s ∈ extract_event_handlers "onClick =".toList "javascript" ↔
        tokenEventOcc "onClick =".toList s = true) := by
  intro hall
  have h1 : "onClick ".toList ∈ extract_event_handlers "onClick =".toList "javascript" := by
    decide
  have h2 := (hall "onClick ".toList).mp h1
  exact absurd h2 (by decide)

/-- Claim C7 amended: in JS-family mode every returned element is a handler
name followed by the (possibly empty) whitespace run that separated it from
its assignment operator in the code, with the operator stripped; and
conversely every token occurrence of a handler name immediately followed by
the assignment operator contributes exactly that handler name. -/
theorem claim7_event_extractor_amended (code s : List Char) :
    (s ∈ extract_event_handlers code "javascript" →
      ∃ name sp, s = name ++ sp ∧ isHandlerName name = true ∧
        (∀ a ∈ sp, isSpaceChar a = true) ∧
        ∃ u v, code = u ++ (name ++ sp ++ ['=']) ++ v) ∧
    (tokenEventOcc code s = true → s ∈ extract_event_handlers code "javascript") := by
  have hjs : ("javascript" : String) = "javascript" ∨ ("javascript" : String) = "typescript" :=
    Or.inl rfl
  constructor
  · intro hs
    unfold extract_event_handlers at hs
    rw [if_pos hjs, List.mem_dedup] at hs
    obtain ⟨cap, hcap_mem, hfil⟩ := List.mem_map.mp hs
    obtain ⟨c, w, sp, hc, hw, hsp, hcapeq, u, v, hdecomp⟩ :=
      scanAux_event_sound code.length code cap hcap_mem
    refine ⟨'o' :: 'n' :: c :: w, sp, ?_, ?_, hsp, u, v, ?_⟩
    · rw [← hfil, hcapeq]
      have hfw : w.filter (fun c => c != '=') = w :=
        List.filter_eq_self.mpr (fun a ha => word_ne_eq (hw a ha))
      have hfsp : sp.filter (fun c => c != '=') = sp :=
        List.filter_eq_self.mpr (fun a ha => space_ne_eq (hsp a ha))
      have hfc : (c != '=') = true := word_ne_eq (isWordChar_of_isUpper hc)
      simp [List.filter_append, List.filter_cons, hfw, hfsp, hfc]
    · show (c.isUpper && w.all isWordChar) = true
      rw [hc, Bool.true_and, List.all_eq_true]
      exact hw
    · rw [hdecomp, hcapeq]
      simp [List.append_assoc]
  · intro ht
    unfold tokenEventOcc at ht
    rw [Bool.and_eq_true, Bool.or_eq_true] at ht
    obtain ⟨hname, hocc⟩ := ht
    have hdec : ∃ pre post, code = pre ++ s ++ '=' :: post ∧
        (∀ d, pre.getLast? = some d → isWordChar d = false) := by
      rcases hocc with h1 | h2
      · obtain ⟨t, ht'⟩ := (matchesFront_iff _ _).mp h1
        refine ⟨[], t, ?_, by simp⟩
        rw [ht']
        simp
      · obtain ⟨pre, post, e, _, hbd⟩ := occAtBoundary_decomp h2
        exact ⟨pre, post, e, hbd⟩
    obtain ⟨pre, post, hceq, hbd⟩ := hdec
    have hmem : s ++ ['='] ∈ scanAll matchEvent code :=
      scanAux_event_complete code.length code pre s post (le_refl _) hceq hname hbd
    unfold extract_event_handlers
    rw [if_pos hjs, List.mem_dedup]
    refine List.mem_map.mpr ⟨s ++ ['='], hmem, ?_⟩
    obtain ⟨c, w, hn, hc, hw⟩ := isHandlerName_eq_true hname
    rw [hn]
    have hfw : w.filter (fun c => c != '=') = w :=
      List.filter_eq_self.mpr (fun a ha => word_ne_eq (hw a ha))
    have hfc : (c != '=') = true := word_ne_eq (isWordChar_of_isUpper hc)
    simp [List.filter_append, List.filter_cons, hfw, hfc]

/-- Closed witness for the amended claim C7: a token occurrence onClick
immediately followed by the assignment operator contributes exactly
"onClick". -/
theorem claim7_witness :
    "onClick".toList ∈ extract_event_handlers " onClick=x".toList "javascript" :=
  (claim7_event_extractor_amended " onClick=x".toList "onClick".toList).2 (by decide)
